import Mathlib

/-!
Verification development for the credshed record normalizer
(src/lib/account.py and src/lib/validation.py).

Byte strings are modelled as lists of naturals (`Bytes`); each Python
byte-string operation used by the source is translated to an executable
Lean function.  The codec helpers `decode`, `encode` and `clean_encoding`
live in `lib/util.py`, which is not part of the sources under
verification; following the specification they are modelled as the
identity on byte sequences (well-encoded input).
-/

namespace Credshed

set_option maxRecDepth 8000

abbrev Bytes := List Nat

/-- Python `bytes.strip` family: drop bytes satisfying `p` from both ends. -/
def pyStrip (p : Nat → Bool) (s : Bytes) : Bytes :=
  ((s.dropWhile p).reverse.dropWhile p).reverse

/-- ASCII whitespace bytes removed by Python `bytes.strip()` with no argument. -/
def isSpaceByte (c : Nat) : Bool :=
  c == 32 || c == 9 || c == 10 || c == 13 || c == 11 || c == 12

/-- Python `s.strip()` (whitespace at both ends). -/
def pyStripWs (s : Bytes) : Bytes := pyStrip isSpaceByte s

/-- Python `s.strip(b'\r\n')`. -/
def pyStripCRLF (s : Bytes) : Bytes := pyStrip (fun c => c == 13 || c == 10) s

/-- ASCII lower-casing of one byte, as Python `bytes.lower` does per byte. -/
def lowerByte (c : Nat) : Nat := if 65 ≤ c && c ≤ 90 then c + 32 else c

/-- Python `bytes.lower()`. -/
def pyLower (s : Bytes) : Bytes := s.map lowerByte

/-- Python negative-start slice `s[-n:]`: the last `n` bytes. -/
def pyTakeLast (n : Nat) (s : Bytes) : Bytes := s.drop (s.length - n)

/-- Python `s.split(sep)` for a single-byte separator: the list of chunks
between occurrences of `c`, empties preserved; always non-empty. -/
def pySplit : Bytes → Nat → List Bytes
  | [], _ => [[]]
  | b :: rest, c =>
    if b == c then [] :: pySplit rest c
    else
      match pySplit rest c with
      | [] => [[b]]
      | x :: xs => (b :: x) :: xs

/-! ### Validator (src/lib/validation.py) -/

/-- ASCII letter (either case), as matched by `[A-Z]` under `re.I`. -/
def isAlphaByte (c : Nat) : Bool := (65 ≤ c && c ≤ 90) || (97 ≤ c && c ≤ 122)

/-- ASCII digit. -/
def isDigitByte (c : Nat) : Bool := 48 ≤ c && c ≤ 57

/-- Character class of the email local part: `[A-Z0-9_\-\.\+]` under `re.I`. -/
def isLocalChar (c : Nat) : Bool :=
  isAlphaByte c || isDigitByte c || c == 95 || c == 45 || c == 46 || c == 43

/-- Character class of the email domain part: `[A-Z0-9_\-\.]` under `re.I`. -/
def isDomainChar (c : Nat) : Bool :=
  isAlphaByte c || isDigitByte c || c == 95 || c == 45 || c == 46

/-- Hexadecimal digit, as matched by `[a-f0-9]` under `re.I`. -/
def isHexDigitByte (c : Nat) : Bool :=
  isDigitByte c || (97 ≤ c && c ≤ 102) || (65 ≤ c && c ≤ 70)

/-- Character class `[a-z0-9:/\.]` under `re.I` of `extended_hash_regex`. -/
def isDigestChar (c : Nat) : Bool :=
  isAlphaByte c || isDigitByte c || c == 58 || c == 47 || c == 46

/-- Split a byte string at its last `.` (byte 46), if any. -/
def lastDotSplit (s : Bytes) : Option (Bytes × Bytes) :=
  if s.contains 46 then
    let t := (s.reverse.takeWhile (fun c => !(c == 46))).reverse
    some (s.take (s.length - t.length - 1), t)
  else none

/-- Body of `email_regex_bytes` without the `$` anchor subtlety:
`^([A-Z0-9_\-\.\+]+)@([A-Z0-9_\-\.]+)\.([A-Z]{2,8})` matching the whole
string.  The local and domain classes exclude `@`, so a match forces
exactly one `@`; the TLD excludes `.`, so only the last dot of the
domain side can close the pattern. -/
def emailCore (s : Bytes) : Bool :=
  match pySplit s 64 with
  | [l, rest] =>
    !l.isEmpty && l.all isLocalChar &&
    (match lastDotSplit rest with
     | some (d, t) =>
       !d.isEmpty && d.all isDomainChar &&
       decide (2 ≤ t.length) && decide (t.length ≤ 8) && t.all isAlphaByte
     | none => false)
  | _ => false

/-- Translation of `validation.is_email` on bytes.  The length guard comes
first; Python's `$` also matches just before one trailing newline, which
the second disjunct reproduces. -/
def is_email (s : Bytes) : Bool :=
  if 128 < s.length then false
  else emailCore s || (s.getLast? == some 10 && emailCore s.dropLast)

/-- Byte accepted by the base64 data alphabet `A-Za-z0-9+/`. -/
def b64AlphaByte (c : Nat) : Bool :=
  isAlphaByte c || isDigitByte c || c == 43 || c == 47

/-- State of CPython's non-strict `binascii.a2b_base64` scanner: position
inside the current 4-character group, padding characters counted so far,
and whether padding already terminated the parse. -/
structure B64St where
  qp : Nat
  pads : Nat
  stopped : Bool
deriving DecidableEq

/-- One step of CPython's non-strict base64 scanner: data characters
advance the group position and reset the padding count, `=` counts as
padding only from group position 2 on (terminating once the group is
filled), every other byte is discarded. -/
def b64Step (st : B64St) (c : Nat) : B64St :=
  if st.stopped then st
  else if c == 61 then
    if 2 ≤ st.qp then
      if 4 ≤ st.qp + st.pads + 1 then { qp := st.qp, pads := st.pads + 1, stopped := true }
      else { qp := st.qp, pads := st.pads + 1, stopped := false }
    else st
  else if b64AlphaByte c then { qp := (st.qp + 1) % 4, pads := 0, stopped := false }
  else st

/-- Whether Python `base64.b64decode` succeeds (no `binascii.Error`):
either padding closed a group, or no partial group is left at the end. -/
def pyB64DecodeOk (s : Bytes) : Bool :=
  let st := s.foldl b64Step { qp := 0, pads := 0, stopped := false }
  st.stopped || st.qp == 0

/-- Translation of `hash_regex.match(s)`: the pattern `[a-f0-9]{20,}`
anchored by `re.match` at the start of the string. -/
def hashRegexMatch (s : Bytes) : Bool :=
  decide (20 ≤ s.length) && (s.take 20).all isHexDigitByte

/-- Translation of `extended_hash_regex.match(s)`: `\$.{1,13}\$[a-z0-9:/\.]{20,}`
anchored at the start; `.` matches any byte except newline. -/
def extendedHashMatch (s : Bytes) : Bool :=
  s.head? == some 36 &&
  (List.range 13).any (fun i =>
    let k := i + 1
    let rest := s.drop (k + 1)
    decide (k + 1 ≤ s.length) && ((s.drop 1).take k).all (fun c => !(c == 10)) &&
    rest.head? == some 36 &&
    decide (20 ≤ rest.length - 1) && ((rest.drop 1).take 20).all isDigestChar)

/-- Translation of `validation.is_hash`: the `=`-terminated base64 probe
decides alone when it fires (its failure returns `False` without falling
through), then the anchored hex matcher, then the `$scheme$` shape behind
a length-23 guard. -/
def is_hash (s : Bytes) : Bool :=
  if 10 < s.length && s.getLast? == some 61 then pyB64DecodeOk s
  else if hashRegexMatch s then true
  else if decide (23 ≤ s.length) && extendedHashMatch s then true
  else false

/-! ### SHA-256 (hashlib.sha256), executable over byte lists -/

/-- Reduce modulo 2^32. -/
def u32 (n : Nat) : Nat := n % 4294967296

/-- 32-bit right rotation. -/
def rotr (x n : Nat) : Nat := u32 ((x >>> n) ||| (x <<< (32 - n)))

/-- 32-bit bitwise complement. -/
def maskNot (x : Nat) : Nat := x ^^^ 4294967295

/-- SHA-256 round constants (FIPS 180-4). -/
def shaK : List Nat :=
  [1116352408, 1899447441, 3049323471, 3921009573, 961987163, 1508970993,
   2453635748, 2870763221, 3624381080, 310598401, 607225278, 1426881987,
   1925078388, 2162078206, 2614888103, 3248222580, 3835390401, 4022224774,
   264347078, 604807628, 770255983, 1249150122, 1555081692, 1996064986,
   2554220882, 2821834349, 2952996808, 3210313671, 3336571891, 3584528711,
   113926993, 338241895, 666307205, 773529912, 1294757372, 1396182291,
   1695183700, 1986661051, 2177026350, 2456956037, 2730485921, 2820302411,
   3259730800, 3345764771, 3516065817, 3600352804, 4094571909, 275423344,
   430227734, 506948616, 659060556, 883997877, 958139571, 1322822218,
   1537002063, 1747873779, 1955562222, 2024104815, 2227730452, 2361852424,
   2428436474, 2756734187, 3204031479, 3329325298]

/-- SHA-256 initial hash value (FIPS 180-4). -/
def shaH0 : List Nat :=
  [1779033703, 3144134277, 1013904242, 2773480762,
   1359893119, 2600822924, 528734635, 1541459225]

/-- Big-endian word from up to four bytes. -/
def toWordBE (bs : Bytes) : Nat := bs.foldl (fun acc b => acc * 256 + b) 0

/-- Big-endian bytes of a 32-bit word. -/
def wordToBytesBE (w : Nat) : Bytes :=
  [w / 16777216 % 256, w / 65536 % 256, w / 256 % 256, w % 256]

/-- SHA-256 padding: a 1-bit, zeros up to 56 mod 64, then the 64-bit
big-endian bit length. -/
def padMessage (msg : Bytes) : Bytes :=
  let L := msg.length
  let padLen := (64 + 56 - (L + 1) % 64) % 64
  let bits := L * 8
  msg ++ 128 :: (List.replicate padLen 0 ++
    [bits / 72057594037927936 % 256, bits / 281474976710656 % 256,
     bits / 1099511627776 % 256, bits / 4294967296 % 256,
     bits / 16777216 % 256, bits / 65536 % 256, bits / 256 % 256, bits % 256])

/-- SHA-256 message schedule: 16 big-endian words of the block extended
to 64 words. -/
def msgSchedule (block : Bytes) : List Nat :=
  let w16 := (List.range 16).map (fun j => toWordBE ((block.drop (4 * j)).take 4))
  (List.range 48).foldl
    (fun w i =>
      let s0 := rotr (w.getD (i + 1) 0) 7 ^^^ rotr (w.getD (i + 1) 0) 18 ^^^ (w.getD (i + 1) 0 >>> 3)
      let s1 := rotr (w.getD (i + 14) 0) 17 ^^^ rotr (w.getD (i + 14) 0) 19 ^^^ (w.getD (i + 14) 0 >>> 10)
      w ++ [u32 (s1 + w.getD (i + 9) 0 + s0 + w.getD i 0)])
    w16

/-- SHA-256 compression of one 64-byte block into the running hash. -/
def compressBlock (h : List Nat) (block : Bytes) : List Nat :=
  let w := msgSchedule block
  let st :=
    (List.range 64).foldl
      (fun st i =>
        match st with
        | (a, b, c, d, e, f, g, hh) =>
          let S1 := rotr e 6 ^^^ rotr e 11 ^^^ rotr e 25
          let ch := (e &&& f) ^^^ (maskNot e &&& g)
          let t1 := u32 (hh + S1 + ch + shaK.getD i 0 + w.getD i 0)
          let S0 := rotr a 2 ^^^ rotr a 13 ^^^ rotr a 22
          let mj := (a &&& b) ^^^ (a &&& c) ^^^ (b &&& c)
          let t2 := u32 (S0 + mj)
          (u32 (t1 + t2), a, b, c, u32 (d + t1), e, f, g))
      (h.getD 0 0, h.getD 1 0, h.getD 2 0, h.getD 3 0,
       h.getD 4 0, h.getD 5 0, h.getD 6 0, h.getD 7 0)
  match st with
  | (a, b, c, d, e, f, g, hh) =>
    [u32 (h.getD 0 0 + a), u32 (h.getD 1 0 + b), u32 (h.getD 2 0 + c),
     u32 (h.getD 3 0 + d), u32 (h.getD 4 0 + e), u32 (h.getD 5 0 + f),
     u32 (h.getD 6 0 + g), u32 (h.getD 7 0 + hh)]

/-- SHA-256 digest (32 bytes) of a byte string. -/
def sha256 (msg : Bytes) : Bytes :=
  let p := padMessage msg
  let blocks := (List.range (p.length / 64)).map (fun i => (p.drop (64 * i)).take 64)
  ((blocks.foldl compressBlock shaH0).map wordToBytesBE).foldr (· ++ ·) []

/-! ### Base64 encoding (base64.b64encode) -/

/-- The standard base64 alphabet as byte values. -/
def b64Alphabet : Bytes :=
  [65, 66, 67, 68, 69, 70, 71, 72, 73, 74, 75, 76, 77, 78, 79, 80, 81, 82,
   83, 84, 85, 86, 87, 88, 89, 90, 97, 98, 99, 100, 101, 102, 103, 104,
   105, 106, 107, 108, 109, 110, 111, 112, 113, 114, 115, 116, 117, 118,
   119, 120, 121, 122, 48, 49, 50, 51, 52, 53, 54, 55, 56, 57, 43, 47]

/-- Python `base64.b64encode`: standard alphabet with `=` padding. -/
def b64encode : Bytes → Bytes
  | b1 :: b2 :: b3 :: rest =>
    b64Alphabet.getD (b1 / 4) 0 ::
    b64Alphabet.getD (b1 % 4 * 16 + b2 / 16) 0 ::
    b64Alphabet.getD (b2 % 16 * 4 + b3 / 64) 0 ::
    b64Alphabet.getD (b3 % 64) 0 :: b64encode rest
  | [b1, b2] =>
    [b64Alphabet.getD (b1 / 4) 0, b64Alphabet.getD (b1 % 4 * 16 + b2 / 16) 0,
     b64Alphabet.getD (b2 % 16 * 4) 0, 61]
  | [b1] =>
    [b64Alphabet.getD (b1 / 4) 0, b64Alphabet.getD (b1 % 4 * 16) 0, 61, 61]
  | [] => []

/-! ### Codec collaborators (lib/util.py, not under src/) -/

/-- Modelled from the spec: the Codec collaborator's `decode(bytes) -> text`
(lib/util.py is not among the sources).  Text is represented by its byte
sequence, so decoding well-formed data is the identity. -/
def decode (s : Bytes) : Bytes := s

/-- Modelled from the spec: the Codec collaborator's `encode(text) -> bytes`
(lib/util.py is not among the sources); the identity under the byte-level
representation of text. -/
def encode (s : Bytes) : Bytes := s

/-- Modelled from the spec: the Codec repair step `clean_encoding`
(lib/util.py is not among the sources); the identity on well-encoded
byte sequences. -/
def clean_encoding (s : Bytes) : Bytes := s

/-! ### The canonical record (class Account) -/

/-- The canonical record: five byte-string fields, mirroring the
`__slots__` of `Account`. -/
structure Account where
  email : Bytes
  username : Bytes
  password : Bytes
  hash : Bytes
  misc : Bytes
deriving DecidableEq

/-- The allow-set `Account.valid_email_chars`:
`b'abcdefghijklmnopqrstuvwxyz0123456789-_.+@'`. -/
def valid_email_chars : Bytes :=
  [97, 98, 99, 100, 101, 102, 103, 104, 105, 106, 107, 108, 109, 110, 111,
   112, 113, 114, 115, 116, 117, 118, 119, 120, 121, 122,
   48, 49, 50, 51, 52, 53, 54, 55, 56, 57, 45, 95, 46, 43, 64]

/-- Step 1 of `Account.__init__`: strip, lower-case, then keep only the
bytes of `valid_email_chars`. -/
def filterEmailInput (e : Bytes) : Bytes :=
  (pyLower (pyStripWs e)).filter (fun c => valid_email_chars.contains c)

/-- Step 2 of `Account.__init__`: strip whitespace, then delete every
apostrophe (39) and backslash (92), as `translate(None, b"'\\")` does. -/
def cleanUsername (u : Bytes) : Bytes :=
  (pyStripWs u).filter (fun c => !(c == 39) && !(c == 92))

/-- Steps 4 and 5 of `Account.__init__` on the cleaned email and username:
promote an email-shaped username when the email is empty; otherwise demote
an invalid email into an empty username slot, failing instead when
`strict` is set. -/
def emailStage (e1 u1 : Bytes) (strict : Bool) : Option (Bytes × Bytes) :=
  if e1.isEmpty then
    if is_email u1 then some (pyLower u1, []) else some (e1, u1)
  else if !(is_email e1) then
    if strict then none
    else if u1.isEmpty then some ([], e1)
    else some (e1, u1)
  else some (e1, u1)

/-- Step 6 of `Account.__init__`: `if not _hash and self.password` and
`is_hash(self.password)`, move the password into the hash slot.  The
first conjunct tests the raw `_hash` argument, not the cleaned field. -/
def step6 (hash0 p1 h1 : Bytes) : Bytes × Bytes :=
  if hash0.isEmpty && !p1.isEmpty && is_hash p1 then (([] : Bytes), p1) else (p1, h1)

/-- Step 7 of `Account.__init__`: `if not self.misc and
len(self.password) >= 100`, move the password into the misc slot. -/
def step7 (m1 p2 : Bytes) : Bytes × Bytes :=
  if m1.isEmpty && decide (100 ≤ p2.length) then (([] : Bytes), p2) else (p2, m1)

/-- The validity gate of `Account.__init__`:
`self.email or (self.username and (self.password or self.misc or self.hash))`. -/
def gateB (e u p m h : Bytes) : Bool :=
  !e.isEmpty || (!u.isEmpty && (!p.isEmpty || !m.isEmpty || !h.isEmpty))

/-- Translation of `Account.__init__`: the whole construction pipeline.
`none` models a raised `AccountCreationError`.  Note that step 6 tests
the raw `_hash` argument (`if not _hash`), while every other condition
reads the cleaned fields. -/
def construct (email0 username0 password0 hash0 misc0 : Bytes) (strict : Bool) :
    Option Account :=
  let e1 := filterEmailInput email0
  let u1 := cleanUsername username0
  let m1 := pyStripCRLF misc0
  let p1 := pyStripCRLF password0
  let h1 := pyStripCRLF hash0
  match emailStage e1 u1 strict with
  | none => none
  | some (e2, u2) =>
    let ph := step6 hash0 p1 h1
    let pm := step7 m1 ph.1
    if gateB e2 u2 pm.1 pm.2 ph.2 then
      some
        { email := pyTakeLast 128 (clean_encoding e2)
          username := (clean_encoding u2).take 128
          password := (clean_encoding pm.1).take 128
          hash := (clean_encoding ph.2).take 1000
          misc := (clean_encoding pm.2).take 1000 }
    else none

/-- Translation of the `Account.bytes` property: the five fields joined
by a NUL separator. -/
def Account.bytes (a : Account) : Bytes :=
  List.intercalate [0] [a.email, a.username, a.password, a.hash, a.misc]

/-- Translation of the `Account.split_email` property:
`email, domain = self.email.split(b'@')[:2]`, falling back to
`[self.email, b'']` when the unpacking raises `ValueError`
(no `@` present). -/
def split_email (e : Bytes) : Bytes × Bytes :=
  match pySplit e 64 with
  | [x] => (x, [])
  | x :: y :: _ => (x, y)
  | [] => ([], [])

/-- Translation of `Account.to_object_id`: reversed domain, a `|`
separator (byte 124), then base64 fingerprints of SHA-256 prefixes. -/
def to_object_id (a : Account) : Bytes :=
  if !a.email.isEmpty then
    let ed := split_email a.email
    let domain_chunk := decode ed.2.reverse
    let email_hash := decode (b64encode ((sha256 ed.1).take 6))
    let account_hash := email_hash ++ decode (b64encode ((sha256 a.bytes).take 6))
    domain_chunk ++ 124 :: account_hash
  else
    let account_hash := decode (b64encode ((sha256 a.bytes).take 12))
    ([] : Bytes) ++ 124 :: account_hash

/-- The persistence document shape: `_id` plus the optional `e`, `u`,
`p`, `h`, `m` keys (absent keys modelled as `none`).  The Python key
`_id` is called `docId` here. -/
structure Document where
  docId : Bytes
  e : Option Bytes
  u : Option Bytes
  p : Option Bytes
  h : Option Bytes
  m : Option Bytes
deriving DecidableEq

/-- Translation of the `Account.document` property: every non-empty field
is decoded into its key; `e` stores only the local part of the email. -/
def Account.document (a : Account) : Document :=
  { docId := to_object_id a
    e := if !a.email.isEmpty then some (decode (split_email a.email).1) else none
    u := if !a.username.isEmpty then some (decode a.username) else none
    p := if !a.password.isEmpty then some (decode a.password) else none
    h := if !a.hash.isEmpty then some (decode a.hash) else none
    m := if !a.misc.isEmpty then some (decode a.misc) else none }

/-- Translation of `Account._if_key_exists`: the encoded value of a key,
or the empty byte string when the key is absent. -/
def if_key_exists (o : Option Bytes) : Bytes := (o.map encode).getD []

/-- Translation of `Account.from_document`: rebuild the email as
`local + '@' + reverse(chunk before the first '|' of the identifier)`
when the `e` key exists, then run the construction pipeline again. -/
def from_document (d : Document) : Option Account :=
  let email :=
    match d.e with
    | some e => encode (e ++ 64 :: (d.docId.takeWhile (fun c => !(c == 124))).reverse)
    | none => ([] : Bytes)
  construct email (if_key_exists d.u) (if_key_exists d.p)
    (if_key_exists d.h) (if_key_exists d.m) false

/-! ### Spec-side definitions used to state the claims -/

/-- The hash heuristic as claim C2 words it: branch (b) accepts a string
that CONTAINS at least 20 contiguous hexadecimal characters anywhere. -/
def specIsHashOriginal (s : Bytes) : Bool :=
  if 10 < s.length && s.getLast? == some 61 then pyB64DecodeOk s
  else if (List.range s.length).any (fun i =>
      decide (i + 20 ≤ s.length) && ((s.drop i).take 20).all isHexDigitByte) then true
  else if decide (23 ≤ s.length) && extendedHashMatch s then true
  else false

/-- The hash heuristic as amended: branch (b) requires the 20 contiguous
hexadecimal characters at the START of the string (the matcher is
anchored there). -/
def specIsHashAmended (s : Bytes) : Bool :=
  if 10 < s.length && s.getLast? == some 61 then pyB64DecodeOk s
  else if decide (20 ≤ s.length) && (s.take 20).all isHexDigitByte then true
  else if decide (23 ≤ s.length) && extendedHashMatch s then true
  else false

/-- The NUL-joined digest input named by claim C1:
`email||NUL||username||NUL||password||NUL||hash||NUL||misc`. -/
def specDigestInput (a : Account) : Bytes :=
  a.email ++ (0 :: (a.username ++ (0 :: (a.password ++ (0 :: (a.hash ++ (0 :: a.misc)))))))

/-- The identifier formula as claim C1 words it: the email is split at
the FIRST `@` into local and domain, the domain being everything after
that first `@` (empty when no `@` occurs). -/
def specObjectIdOriginal (a : Account) : Bytes :=
  if a.email.isEmpty then
    124 :: b64encode ((sha256 (specDigestInput a)).take 12)
  else
    let l := a.email.takeWhile (fun b => !(b == 64))
    let d := (a.email.dropWhile (fun b => !(b == 64))).drop 1
    d.reverse ++ 124 ::
      (b64encode ((sha256 l).take 6) ++ b64encode ((sha256 (specDigestInput a)).take 6))

/-- The identifier formula as amended: the domain half is only the
segment between the first and the second `@` (Python `split('@')` and
unpacking of the first two chunks), the rest of a multi-`@` email is
dropped. -/
def specObjectIdAmended (a : Account) : Bytes :=
  if a.email.isEmpty then
    124 :: b64encode ((sha256 (specDigestInput a)).take 12)
  else
    let l := a.email.takeWhile (fun b => !(b == 64))
    let d := ((a.email.dropWhile (fun b => !(b == 64))).drop 1).takeWhile (fun b => !(b == 64))
    d.reverse ++ 124 ::
      (b64encode ((sha256 l).take 6) ++ b64encode ((sha256 (specDigestInput a)).take 6))

/-- The validity gate evaluated after the reclassification steps (run
without the strict short-circuit), as referenced by claim C5. -/
def gateAfter (e0 u0 p0 h0 m0 : Bytes) : Bool :=
  match emailStage (filterEmailInput e0) (cleanUsername u0) false with
  | none => false
  | some (e2, u2) =>
    gateB e2 u2 (step7 (pyStripCRLF m0) (step6 h0 (pyStripCRLF p0) (pyStripCRLF h0)).1).1
      (step7 (pyStripCRLF m0) (step6 h0 (pyStripCRLF p0) (pyStripCRLF h0)).1).2
      (step6 h0 (pyStripCRLF p0) (pyStripCRLF h0)).2

/-- Translation of `Account.__eq__` together with `Account.__hash__`:
CPython compares the (per-process salted) hashes of `self.bytes`, which
agree exactly when the byte strings are equal and differ with
overwhelming probability otherwise; the deterministic content of that
comparison is equality of the NUL-joined byte strings. -/
def accountEq (a b : Account) : Bool := a.bytes == b.bytes

/-! ### Supporting lemmas: byte classes -/

theorem mem_valid_email_chars (c : Nat) :
    valid_email_chars.contains c = true ↔
      (97 ≤ c ∧ c ≤ 122) ∨ (48 ≤ c ∧ c ≤ 57) ∨ c = 45 ∨ c = 95 ∨ c = 46 ∨ c = 43 ∨ c = 64 := by
  simp only [valid_email_chars, List.contains, List.elem_iff, List.mem_cons,
    List.not_mem_nil, or_false]
  omega

theorem lowerByte_of_valid (c : Nat) (h : valid_email_chars.contains c = true) :
    lowerByte c = c := by
  rw [mem_valid_email_chars] at h
  simp only [lowerByte, Bool.and_eq_true, decide_eq_true_eq]
  split
  · omega
  · rfl

theorem isSpaceByte_of_valid (c : Nat) (h : valid_email_chars.contains c = true) :
    isSpaceByte c = false := by
  rw [mem_valid_email_chars] at h
  simp only [isSpaceByte, Bool.or_eq_false_iff, beq_eq_false_iff_ne, ne_eq]
  omega

theorem lowerByte_idem (c : Nat) : lowerByte (lowerByte c) = lowerByte c := by
  simp only [lowerByte, Bool.and_eq_true, decide_eq_true_eq]
  split
  · split
    · omega
    · rfl
  · rfl

/-- A byte of the strict email pattern classes that is fixed by
lower-casing lies in the construction allow-set and is not whitespace. -/
theorem emailClassByte_valid (c : Nat)
    (hcl : isLocalChar c = true ∨ c = 64 ∨ isDomainChar c = true)
    (hlow : lowerByte c = c) :
    valid_email_chars.contains c = true ∧ isSpaceByte c = false := by
  simp only [isLocalChar, isDomainChar, isAlphaByte, isDigitByte, Bool.or_eq_true,
    Bool.and_eq_true, decide_eq_true_eq, beq_iff_eq] at hcl
  have hup : ¬(65 ≤ c ∧ c ≤ 90) := by
    intro hc
    simp only [lowerByte, Bool.and_eq_true, decide_eq_true_eq, if_pos hc] at hlow
    omega
  rw [mem_valid_email_chars]
  simp only [isSpaceByte, Bool.or_eq_false_iff, beq_eq_false_iff_ne, ne_eq]
  omega

/-! ### Supporting lemmas: strip, lower, filter, slices -/

theorem dropWhile_eq_self_of_all {p : Nat → Bool} {l : List Nat}
    (h : ∀ c ∈ l, p c = false) : l.dropWhile p = l := by
  cases l with
  | nil => rfl
  | cons a t =>
    rw [List.dropWhile_cons, if_neg]
    simp [h a (List.mem_cons_self a t)]

theorem pyStrip_eq_self {p : Nat → Bool} {l : List Nat}
    (h : ∀ c ∈ l, p c = false) : pyStrip p l = l := by
  unfold pyStrip
  rw [dropWhile_eq_self_of_all h,
    dropWhile_eq_self_of_all (fun c hc => h c (List.mem_reverse.mp hc)),
    List.reverse_reverse]

theorem map_eq_self_of_fixed {f : Nat → Nat} {l : List Nat}
    (h : ∀ c ∈ l, f c = c) : l.map f = l := by
  conv_rhs => rw [← List.map_id l]
  exact List.map_congr_left h

theorem takeWhile_append_cons {p : Nat → Bool} (xs : List Nat) (y : Nat) (ys : List Nat)
    (hxs : ∀ c ∈ xs, p c = true) (hy : p y = false) :
    (xs ++ y :: ys).takeWhile p = xs := by
  induction xs with
  | nil => simp [List.takeWhile_cons, hy]
  | cons a t ih =>
    simp only [List.cons_append, List.takeWhile_cons, hxs a (List.mem_cons_self a t), if_true]
    rw [ih (fun c hc => hxs c (List.mem_cons_of_mem a hc))]

theorem pyTakeLast_length_le (n : Nat) (s : List Nat) : (pyTakeLast n s).length ≤ n := by
  simp only [pyTakeLast, List.length_drop]
  omega

theorem pyTakeLast_of_le {n : Nat} {s : List Nat} (h : s.length ≤ n) : pyTakeLast n s = s := by
  simp [pyTakeLast, Nat.sub_eq_zero_of_le h]

theorem pyTakeLast_ne_nil {n : Nat} {s : List Nat} (hn : 0 < n) (hs : s ≠ []) :
    pyTakeLast n s ≠ [] := by
  simp only [pyTakeLast, ne_eq, List.drop_eq_nil_iff, not_le]
  have : 0 < s.length := List.length_pos.mpr hs
  omega

theorem take_ne_nil {n : Nat} {s : List Nat} (hn : 0 < n) (hs : s ≠ []) :
    s.take n ≠ [] := by
  cases s with
  | nil => exact absurd rfl hs
  | cons a t =>
    cases n with
    | zero => omega
    | succ m => simp

theorem mem_pyTakeLast {n : Nat} {s : List Nat} {c : Nat} (h : c ∈ pyTakeLast n s) : c ∈ s :=
  (List.drop_sublist _ _).mem h

/-! ### Supporting lemmas: pySplit and split_email -/

theorem pySplit_ne_nil (s : Bytes) (c : Nat) : pySplit s c ≠ [] := by
  cases s with
  | nil => simp [pySplit]
  | cons b rest =>
    simp only [pySplit]
    split
    · simp
    · split
      · simp
      · simp

theorem pySplit_single {s : Bytes} {c : Nat} {x : Bytes}
    (h : pySplit s c = [x]) : s = x ∧ ∀ b ∈ x, b ≠ c := by
  induction s generalizing x with
  | nil =>
    simp only [pySplit, List.cons.injEq] at h
    exact ⟨h.1, by simp [← h.1]⟩
  | cons b rest ih =>
    simp only [pySplit] at h
    by_cases hbc : (b == c) = true
    · rw [if_pos hbc] at h
      simp only [List.cons.injEq] at h
      exact absurd h.2 (pySplit_ne_nil rest c)
    · rw [if_neg hbc] at h
      rcases hps : pySplit rest c with _ | ⟨y, ys⟩
      · exact absurd hps (pySplit_ne_nil rest c)
      · rw [hps] at h
        simp only [List.cons.injEq] at h
        obtain ⟨hx, hys⟩ := h
        obtain ⟨hr, hmem⟩ := ih (by rw [hps, hys])
        refine ⟨by rw [← hx, hr], ?_⟩
        intro z hz
        rw [← hx] at hz
        rcases List.mem_cons.mp hz with hzb | hzy
        · subst hzb
          exact fun hEq => hbc (by simp [hEq])
        · exact hmem z (hr ▸ hzy)

theorem pySplit_pair {s : Bytes} {c : Nat} {x y : Bytes}
    (h : pySplit s c = [x, y]) :
    s = x ++ c :: y ∧ (∀ b ∈ x, b ≠ c) ∧ (∀ b ∈ y, b ≠ c) := by
  induction s generalizing x with
  | nil => simp [pySplit] at h
  | cons b rest ih =>
    simp only [pySplit] at h
    by_cases hbc : (b == c) = true
    · rw [if_pos hbc] at h
      simp only [List.cons.injEq] at h
      obtain ⟨hx, hrest⟩ := h
      obtain ⟨hr, hmem⟩ := pySplit_single hrest
      subst hr
      refine ⟨?_, ?_, hmem⟩
      · rw [← hx, List.nil_append, (beq_iff_eq.mp hbc)]
      · simp [← hx]
    · rw [if_neg hbc] at h
      rcases hps : pySplit rest c with _ | ⟨z, zs⟩
      · exact absurd hps (pySplit_ne_nil rest c)
      · rw [hps] at h
        simp only [List.cons.injEq] at h
        obtain ⟨hx, hzs⟩ := h
        obtain ⟨hr, hmx, hmy⟩ := ih (by rw [hps, hzs])
        refine ⟨?_, ?_, hmy⟩
        · rw [← hx, hr, List.cons_append]
        · intro w hw
          rw [← hx] at hw
          rcases List.mem_cons.mp hw with hwb | hwz
          · subst hwb
            exact fun hEq => hbc (by simp [hEq])
          · exact hmx w hwz

theorem pySplit_first (s : Bytes) (c : Nat) :
    ∃ xs, pySplit s c = s.takeWhile (fun b => !(b == c)) :: xs := by
  induction s with
  | nil => exact ⟨[], rfl⟩
  | cons b r ih =>
    by_cases hbc : (b == c) = true
    · refine ⟨pySplit r c, ?_⟩
      have h1 : pySplit (b :: r) c = [] :: pySplit r c := by
        simp [pySplit, hbc]
      have h2 : (b :: r).takeWhile (fun x => !(x == c)) = [] := by
        simp [List.takeWhile_cons, hbc]
      rw [h1, h2]
    · obtain ⟨xs, hxs⟩ := ih
      refine ⟨xs, ?_⟩
      have h1 : pySplit (b :: r) c = (b :: r.takeWhile (fun x => !(x == c))) :: xs := by
        simp [pySplit, hbc, hxs]
      have h2 : (b :: r).takeWhile (fun x => !(x == c)) =
          b :: r.takeWhile (fun x => !(x == c)) := by
        simp [List.takeWhile_cons, hbc]
      rw [h1, h2]

theorem dropWhile_append_cons {p : Nat → Bool} (xs : List Nat) (y : Nat) (ys : List Nat)
    (hxs : ∀ c ∈ xs, p c = true) (hy : p y = false) :
    (xs ++ y :: ys).dropWhile p = y :: ys := by
  induction xs with
  | nil => simp [List.dropWhile_cons, hy]
  | cons a t ih =>
    simp only [List.cons_append, List.dropWhile_cons, hxs a (List.mem_cons_self a t), if_true]
    exact ih (fun c hc => hxs c (List.mem_cons_of_mem a hc))

theorem dropWhile_head_not {p : Nat → Bool} {l : List Nat} {a : Nat} {t : List Nat}
    (h : l.dropWhile p = a :: t) : p a = false := by
  induction l with
  | nil => simp [List.dropWhile] at h
  | cons b r ih =>
    rw [List.dropWhile_cons] at h
    split at h
    · exact ih h
    · rename_i hb
      cases h
      simpa using hb

theorem pySplit_cons_inv {s : Bytes} {c : Nat} {x : Bytes} {xs : List Bytes}
    (h : pySplit s c = x :: xs) (hne : xs ≠ []) :
    ∃ rest, s = x ++ c :: rest ∧ pySplit rest c = xs ∧ ∀ b ∈ x, b ≠ c := by
  induction s generalizing x with
  | nil =>
    simp only [pySplit, List.cons.injEq] at h
    exact absurd h.2.symm hne
  | cons b r ih =>
    simp only [pySplit] at h
    by_cases hbc : (b == c) = true
    · rw [if_pos hbc] at h
      simp only [List.cons.injEq] at h
      obtain ⟨hx, hxs⟩ := h
      refine ⟨r, ?_, hxs, by simp [← hx]⟩
      rw [← hx, List.nil_append, beq_iff_eq.mp hbc]
    · rw [if_neg hbc] at h
      rcases hps : pySplit r c with _ | ⟨z, zs⟩
      · exact absurd hps (pySplit_ne_nil r c)
      · rw [hps] at h
        simp only [List.cons.injEq] at h
        obtain ⟨hx, hzs⟩ := h
        obtain ⟨rest, hr, hrest, hmem⟩ := ih (by rw [hps, hzs])
        refine ⟨rest, ?_, hrest, ?_⟩
        · rw [← hx, hr, List.cons_append]
        · intro w hw
          rw [← hx] at hw
          rcases List.mem_cons.mp hw with hwb | hwz
          · subst hwb
            exact fun hEq => hbc (by simp [hEq])
          · exact hmem w hwz

theorem split_email_spec (s : Bytes) :
    split_email s =
      (s.takeWhile (fun b => !(b == 64)),
       ((s.dropWhile (fun b => !(b == 64))).drop 1).takeWhile (fun b => !(b == 64))) := by
  rcases hps : pySplit s 64 with _ | ⟨x, xs⟩
  · exact absurd hps (pySplit_ne_nil s 64)
  · obtain ⟨xs', hxs'⟩ := pySplit_first s 64
    rw [hps] at hxs'
    have hx : x = s.takeWhile (fun b => !(b == 64)) := by
      injection hxs' with h1 _
    rcases xs with _ | ⟨y, ys⟩
    · obtain ⟨hs, hmem⟩ := pySplit_single hps
      have hall : ∀ b ∈ s, (!(b == 64)) = true := by
        intro b hb
        simp only [Bool.not_eq_true', beq_eq_false_iff_ne, ne_eq]
        exact hmem b (hs ▸ hb)
      have hdrop : s.dropWhile (fun b => !(b == 64)) = [] :=
        List.dropWhile_eq_nil_iff.mpr hall
      simp only [split_email, hps, hdrop, hx, List.drop_nil, List.takeWhile_nil]
    · obtain ⟨rest, hs, hrest, hmemx⟩ := pySplit_cons_inv hps (by simp)
      have hallx : ∀ b ∈ x, (!(b == 64)) = true := by
        intro b hb
        simp only [Bool.not_eq_true', beq_eq_false_iff_ne, ne_eq]
        exact hmemx b hb
      have hdrop : s.dropWhile (fun b => !(b == 64)) = 64 :: rest := by
        rw [hs]
        exact dropWhile_append_cons x 64 rest hallx (by simp)
      obtain ⟨ys', hys'⟩ := pySplit_first rest 64
      rw [hrest] at hys'
      have hy : y = rest.takeWhile (fun b => !(b == 64)) := by
        injection hys' with h1 _
      simp only [split_email, hps, hdrop, hx, hy, List.drop_succ_cons, List.drop_zero]

theorem lastDotSplit_sound {s d t : Bytes}
    (h : lastDotSplit s = some (d, t)) :
    s = d ++ 46 :: t ∧ ∀ b ∈ t, b ≠ 46 := by
  unfold lastDotSplit at h
  split at h
  · rename_i hcon
    simp only [Option.some.injEq, Prod.mk.injEq] at h
    obtain ⟨hd, ht⟩ := h
    have h46 : (46 : Nat) ∈ s := by
      simpa [List.contains, List.elem_iff] using hcon
    have hne : s.reverse.dropWhile (fun c => !(c == 46)) ≠ [] := by
      intro hnil
      have hall := List.dropWhile_eq_nil_iff.mp hnil
      have := hall 46 (List.mem_reverse.mpr h46)
      simp at this
    obtain ⟨a, z, hdz⟩ := List.exists_cons_of_ne_nil hne
    have ha : a = 46 := by
      have := dropWhile_head_not hdz
      simpa using this
    rw [ha] at hdz
    have hsplit := List.takeWhile_append_dropWhile (fun c => !(c == 46)) s.reverse
    rw [hdz] at hsplit
    have hsrev : s = z.reverse ++ 46 ::
        (s.reverse.takeWhile (fun c => !(c == 46))).reverse := by
      have h2 := congrArg List.reverse hsplit
      rw [List.reverse_reverse] at h2
      conv_lhs => rw [← h2]
      simp [List.reverse_append, List.reverse_cons, List.append_assoc]
    rw [ht] at hsrev
    have hlen2 : s.length - t.length - 1 = z.reverse.length := by
      have := congrArg List.length hsrev
      simp only [List.length_append, List.length_cons, List.length_reverse] at this
      simp only [List.length_reverse]
      omega
    have hdval : d = z.reverse := by
      rw [← hd, ht, hlen2]
      conv_lhs => rw [hsrev]
      exact List.take_left z.reverse _
    constructor
    · rw [hdval]
      exact hsrev
    · intro b hb
      rw [← ht] at hb
      have hb2 := List.mem_reverse.mp hb
      have := List.mem_takeWhile_imp hb2
      simpa using this
  · exact absurd h (by simp)

theorem isDomainChar_of_alpha {c : Nat} (h : isAlphaByte c = true) :
    isDomainChar c = true := by
  simp [isDomainChar, h]

theorem emailCore_decomp {s : Bytes} (h : emailCore s = true) :
    ∃ l rest, pySplit s 64 = [l, rest] ∧ s = l ++ 64 :: rest ∧ l ≠ [] ∧
      (∀ c ∈ l, isLocalChar c = true) ∧ (∀ c ∈ rest, isDomainChar c = true) := by
  unfold emailCore at h
  rcases hps : pySplit s 64 with _ | ⟨l, _ | ⟨rest, _ | ⟨x3, xs3⟩⟩⟩ <;> rw [hps] at h
  · simp at h
  · simp at h
  case cons.cons.cons => simp at h
  have hbr : (!l.isEmpty && l.all isLocalChar &&
      (match lastDotSplit rest with
       | some (d, t) =>
         !d.isEmpty && d.all isDomainChar &&
         decide (2 ≤ t.length) && decide (t.length ≤ 8) && t.all isAlphaByte
       | none => false)) = true := h
  rcases hld : lastDotSplit rest with _ | ⟨d, t⟩ <;> rw [hld] at hbr
  · exact absurd hbr (by simp)
  · have hbr2 : (!l.isEmpty && l.all isLocalChar &&
        (!d.isEmpty && d.all isDomainChar &&
         decide (2 ≤ t.length) && decide (t.length ≤ 8) && t.all isAlphaByte)) = true := hbr
    simp only [Bool.and_eq_true] at hbr2
    obtain ⟨⟨hlne, hlall⟩, ⟨⟨⟨hdne, hdall⟩, ht2⟩, ht8⟩, htall⟩ := hbr2
    obtain ⟨hrest, htmem⟩ := lastDotSplit_sound hld
    obtain ⟨hjoin, hmeml, hmemr⟩ := pySplit_pair hps
    refine ⟨l, rest, ?_, hjoin, by simpa using hlne,
      fun c hc => List.all_eq_true.mp hlall c hc, ?_⟩
    · rfl
    intro c hc
    rw [hrest] at hc
    rcases List.mem_append.mp hc with hcd | hct
    · exact List.all_eq_true.mp hdall c hcd
    · rcases List.mem_cons.mp hct with hc46 | hct2
      · subst hc46
        decide
      · exact isDomainChar_of_alpha (List.all_eq_true.mp htall c hct2)

/-! ### Supporting lemmas: the construction pipeline -/

/-- A successful construction, unfolded into its pipeline stages. -/
theorem construct_eq_some_iff {e0 u0 p0 h0 m0 : Bytes} {st : Bool} {r : Account} :
    construct e0 u0 p0 h0 m0 st = some r ↔
      ∃ e2 u2,
        emailStage (filterEmailInput e0) (cleanUsername u0) st = some (e2, u2) ∧
        gateB e2 u2 (step7 (pyStripCRLF m0) (step6 h0 (pyStripCRLF p0) (pyStripCRLF h0)).1).1
          (step7 (pyStripCRLF m0) (step6 h0 (pyStripCRLF p0) (pyStripCRLF h0)).1).2
          (step6 h0 (pyStripCRLF p0) (pyStripCRLF h0)).2 = true ∧
        r = { email := pyTakeLast 128 e2
              username := u2.take 128
              password :=
                (step7 (pyStripCRLF m0) (step6 h0 (pyStripCRLF p0) (pyStripCRLF h0)).1).1.take 128
              hash := (step6 h0 (pyStripCRLF p0) (pyStripCRLF h0)).2.take 1000
              misc :=
                (step7 (pyStripCRLF m0) (step6 h0 (pyStripCRLF p0) (pyStripCRLF h0)).1).2.take 1000 } := by
  simp only [construct, clean_encoding]
  rcases hes : emailStage (filterEmailInput e0) (cleanUsername u0) st with _ | ⟨e2, u2⟩
  · simp
  · simp only [Option.some.injEq, Prod.mk.injEq]
    constructor
    · intro hlhs
      split at hlhs
      · rename_i hg
        exact ⟨e2, u2, ⟨rfl, rfl⟩, hg, ((Option.some.injEq _ _).mp hlhs).symm⟩
      · exact absurd hlhs (by simp)
    · rintro ⟨e2x, u2x, ⟨he2, hu2⟩, hg, hr⟩
      subst he2
      subst hu2
      rw [if_pos hg, hr]

/-- The email stage fails exactly for a strict rejection: non-empty
filtered email failing the strict predicate under `strict`. -/
theorem emailStage_none_iff {e1 u1 : Bytes} {st : Bool} :
    emailStage e1 u1 st = none ↔
      st = true ∧ e1.isEmpty = false ∧ is_email e1 = false := by
  unfold emailStage
  split_ifs <;> simp_all

/-- When the email stage succeeds, the strict flag did not matter. -/
theorem emailStage_agree {e1 u1 : Bytes} {st : Bool} {v : Bytes × Bytes}
    (h : emailStage e1 u1 st = some v) : emailStage e1 u1 false = some v := by
  unfold emailStage at *
  split_ifs at * <;> simp_all

theorem mem_filterEmailInput {c : Nat} {e0 : Bytes} (h : c ∈ filterEmailInput e0) :
    valid_email_chars.contains c = true :=
  List.of_mem_filter h

/-- Every byte of a canonical email is fixed by lower-casing. -/
theorem construct_email_lower {e0 u0 p0 h0 m0 : Bytes} {st : Bool} {r : Account}
    (hc : construct e0 u0 p0 h0 m0 st = some r) :
    ∀ c ∈ r.email, lowerByte c = c := by
  obtain ⟨e2, u2, hes, hg, hr⟩ := construct_eq_some_iff.mp hc
  subst hr
  intro c hcmem
  have hce2 : c ∈ e2 := mem_pyTakeLast hcmem
  unfold emailStage at hes
  split_ifs at hes with h1 h2 h3 h4 h5 <;>
    simp only [Option.some.injEq, Prod.mk.injEq] at hes
  · -- promotion: e2 is the lower-cased username
    obtain ⟨he2, _⟩ := hes
    rw [← he2] at hce2
    obtain ⟨c', _, hc'⟩ := List.mem_map.mp hce2
    rw [← hc']
    exact lowerByte_idem c'
  · obtain ⟨he2, _⟩ := hes
    rw [← he2] at hce2
    exact lowerByte_of_valid c (mem_filterEmailInput hce2)
  · obtain ⟨he2, _⟩ := hes
    rw [← he2] at hce2
    simp at hce2
  · obtain ⟨he2, _⟩ := hes
    rw [← he2] at hce2
    exact lowerByte_of_valid c (mem_filterEmailInput hce2)
  · obtain ⟨he2, _⟩ := hes
    rw [← he2] at hce2
    exact lowerByte_of_valid c (mem_filterEmailInput hce2)

/-- A failing construction, unfolded into its two failure sources. -/
theorem construct_eq_none_iff {e0 u0 p0 h0 m0 : Bytes} {st : Bool} :
    construct e0 u0 p0 h0 m0 st = none ↔
      emailStage (filterEmailInput e0) (cleanUsername u0) st = none ∨
      (∃ e2 u2, emailStage (filterEmailInput e0) (cleanUsername u0) st = some (e2, u2) ∧
        gateB e2 u2 (step7 (pyStripCRLF m0) (step6 h0 (pyStripCRLF p0) (pyStripCRLF h0)).1).1
          (step7 (pyStripCRLF m0) (step6 h0 (pyStripCRLF p0) (pyStripCRLF h0)).1).2
          (step6 h0 (pyStripCRLF p0) (pyStripCRLF h0)).2 = false) := by
  simp only [construct, clean_encoding]
  rcases hes : emailStage (filterEmailInput e0) (cleanUsername u0) st with _ | ⟨e2, u2⟩
  · simp
  · simp only [Option.some.injEq, Prod.mk.injEq]
    constructor
    · intro h
      split at h
      · exact absurd h (by simp)
      · rename_i hg
        exact Or.inr ⟨e2, u2, ⟨rfl, rfl⟩, by simpa using hg⟩
    · rintro (h | ⟨e2x, u2x, ⟨he, hu⟩, hgf⟩)
      · simp at h
      · subst he
        subst hu
        rw [if_neg (by simp [hgf])]

/-- The invariants of every successfully constructed record: length
bounds and the validity gate. -/
theorem construct_some_invariants {e0 u0 p0 h0 m0 : Bytes} {st : Bool} {r : Account}
    (hc : construct e0 u0 p0 h0 m0 st = some r) :
    r.email.length ≤ 128 ∧ r.username.length ≤ 128 ∧ r.password.length ≤ 128 ∧
    r.hash.length ≤ 1000 ∧ r.misc.length ≤ 1000 ∧
    (r.email ≠ [] ∨ (r.username ≠ [] ∧ (r.password ≠ [] ∨ r.hash ≠ [] ∨ r.misc ≠ []))) := by
  obtain ⟨e2, u2, hes, hg, hr⟩ := construct_eq_some_iff.mp hc
  subst hr
  have bne : ∀ l : Bytes, (!l.isEmpty) = true → l ≠ [] := fun l h => by simpa using h
  simp only [gateB, Bool.or_eq_true, Bool.and_eq_true] at hg
  refine ⟨pyTakeLast_length_le _ _, List.length_take_le _ _, List.length_take_le _ _,
    List.length_take_le _ _, List.length_take_le _ _, ?_⟩
  rcases hg with he | ⟨hu, hpmh⟩
  · exact Or.inl (pyTakeLast_ne_nil (by norm_num) (bne _ he))
  · refine Or.inr ⟨take_ne_nil (by norm_num) (bne _ hu), ?_⟩
    rcases hpmh with (hp | hm) | hh
    · exact Or.inl (take_ne_nil (by norm_num) (bne _ hp))
    · exact Or.inr (Or.inr (take_ne_nil (by norm_num) (bne _ hm)))
    · exact Or.inr (Or.inl (take_ne_nil (by norm_num) (bne _ hh)))

/-- The NUL-joined `Account.bytes` written out explicitly. -/
theorem account_bytes_eq (a : Account) :
    a.bytes = a.email ++
      (0 :: (a.username ++ (0 :: (a.password ++ (0 :: (a.hash ++ (0 :: a.misc))))))) := by
  simp [Account.bytes, List.intercalate, List.intersperse]

/-- Splitting at a NUL separator is unambiguous when the left parts are
NUL-free. -/
theorem append_nul_inj {a b x y : Bytes} (ha : (0 : Nat) ∉ a) (hb : (0 : Nat) ∉ b)
    (h : a ++ 0 :: x = b ++ 0 :: y) : a = b ∧ x = y := by
  induction a generalizing b with
  | nil =>
    cases b with
    | nil => simpa using h
    | cons c bt =>
      simp only [List.nil_append, List.cons_append, List.cons.injEq] at h
      exact absurd (List.mem_cons.mpr (Or.inl h.1)) hb
  | cons c at' ih =>
    cases b with
    | nil =>
      simp only [List.cons_append, List.nil_append, List.cons.injEq] at h
      exact absurd (List.mem_cons.mpr (Or.inl h.1.symm)) ha
    | cons d bt =>
      simp only [List.cons_append, List.cons.injEq] at h
      obtain ⟨hcd, hrest⟩ := h
      have ha2 : (0 : Nat) ∉ at' := fun hm => ha (List.mem_cons_of_mem _ hm)
      have hb2 : (0 : Nat) ∉ bt := fun hm => hb (List.mem_cons_of_mem _ hm)
      obtain ⟨hab, hxy⟩ := ih ha2 hb2 hrest
      exact ⟨by rw [hcd, hab], hxy⟩

theorem is_email_of_emailCore {s : Bytes} (hc : emailCore s = true)
    (hlen : s.length ≤ 128) : is_email s = true := by
  unfold is_email
  rw [if_neg (by omega)]
  simp [hc]

/-- The email filter fixes a string made only of allow-set bytes. -/
theorem filterEmailInput_fixed {s : Bytes}
    (hall : ∀ c ∈ s, valid_email_chars.contains c = true) :
    filterEmailInput s = s := by
  unfold filterEmailInput
  rw [show pyStripWs s = s from
      pyStrip_eq_self (fun c hc => isSpaceByte_of_valid c (hall c hc))]
  rw [show pyLower s = s from
      map_eq_self_of_fixed (fun c hc => lowerByte_of_valid c (hall c hc))]
  exact List.filter_eq_self.mpr (fun c hc => hall c hc)

/-- Every byte of a canonical email that matches the strict pattern body
lies in the allow-set. -/
theorem canonical_email_chars {e0 u0 p0 h0 m0 : Bytes} {st : Bool} {r : Account}
    (hc : construct e0 u0 p0 h0 m0 st = some r) (hcore : emailCore r.email = true) :
    ∀ c ∈ r.email, valid_email_chars.contains c = true := by
  obtain ⟨l, rest, hps, hjoin, hlne, hlmem, hrmem⟩ := emailCore_decomp hcore
  intro c hcmem
  have hlow := construct_email_lower hc c hcmem
  rw [hjoin] at hcmem
  rcases List.mem_append.mp hcmem with hcl | hcr
  · exact (emailClassByte_valid c (Or.inl (hlmem c hcl)) hlow).1
  · rcases List.mem_cons.mp hcr with hc64 | hcrest
    · exact (emailClassByte_valid c (Or.inr (Or.inl hc64)) hlow).1
    · exact (emailClassByte_valid c (Or.inr (Or.inr (hrmem c hcrest))) hlow).1

theorem domainChar_ne_pipe {c : Nat} (h : isDomainChar c = true) :
    (!(c == 124)) = true := by
  simp only [isDomainChar, isAlphaByte, isDigitByte, Bool.or_eq_true, Bool.and_eq_true,
    decide_eq_true_eq, beq_iff_eq] at h
  simp only [Bool.not_eq_true', beq_eq_false_iff_ne, ne_eq]
  omega

/-- Reading back an optional document key recovers the field. -/
theorem if_key_exists_opt (x : Bytes) :
    if_key_exists (if !x.isEmpty then some x else none) = x := by
  by_cases hx : x.isEmpty
  · have hnil : x = [] := by simpa using hx
    simp [if_key_exists, hx, hnil]
  · simp [if_key_exists, hx, encode]

theorem gateB_of_email {e u p m h : Bytes} (he : e.isEmpty = false) :
    gateB e u p m h = true := by
  simp [gateB, he]

/-! ### The claims -/

/-- Claim C2 (amended): `is_hash` follows the ordered heuristic of the
claim, except that branch (b) requires the 20 contiguous hexadecimal
characters at the start of the string — `hash_regex` is applied with
`re.match`, which anchors at position 0, not searched anywhere. -/
theorem claim_C2 : ∀ s : Bytes, is_hash s = specIsHashAmended s := by
  intro s
  rfl

/-- Claim C2 counterexample: `z` followed by twenty `a`s contains twenty
contiguous hexadecimal characters, so the claim's branch (b) accepts it,
but the anchored matcher of the code rejects it. -/
theorem claim_C2_counterexample :
    is_hash [122, 97, 97, 97, 97, 97, 97, 97, 97, 97, 97,
             97, 97, 97, 97, 97, 97, 97, 97, 97, 97] = false ∧
    specIsHashOriginal [122, 97, 97, 97, 97, 97, 97, 97, 97, 97, 97,
             97, 97, 97, 97, 97, 97, 97, 97, 97, 97] = true := by
  constructor
  · decide
  · decide

/-- Claim C4 (amended): with `strict` set, a filtered email that is
non-empty and fails the strict email predicate makes construction fail,
whatever the other fields hold.  (The raw email argument may filter to
something empty or valid, in which case strict mode does not reject.) -/
theorem claim_C4 (e0 u0 p0 h0 m0 : Bytes)
    (hne : (filterEmailInput e0).isEmpty = false)
    (hbad : is_email (filterEmailInput e0) = false) :
    construct e0 u0 p0 h0 m0 true = none := by
  have hes : emailStage (filterEmailInput e0) (cleanUsername u0) true = none :=
    emailStage_none_iff.mpr ⟨rfl, hne, hbad⟩
  simp [construct, hes]

/-- Claim C4 witness: the strict rejection at a concrete input. -/
theorem claim_C4_witness : construct [97, 64, 98] [117] [112] [] [] true = none :=
  claim_C4 [97, 64, 98] [117] [112] [] [] (by decide) (by decide)

/-- Claim C4 counterexample: the raw email `###` is non-empty and fails
the strict predicate, yet under `strict` the construction SUCCEEDS,
because the filter empties the email before the strict check runs. -/
theorem claim_C4_counterexample :
    is_email [35, 35, 35] = false ∧
    construct [35, 35, 35] [98, 111, 98] [120] [] [] true =
      some (Account.mk [] [98, 111, 98] [120] [] []) := by
  constructor
  · decide
  · decide

/-- Claim C9: every successfully constructed record satisfies the length
bounds (email, username, password at most 128 bytes; hash and misc at
most 1000 bytes) and the validity gate; the record value never changes
after construction in this functional embedding. -/
theorem claim_C9 (e0 u0 p0 h0 m0 : Bytes) (st : Bool) (r : Account)
    (hc : construct e0 u0 p0 h0 m0 st = some r) :
    r.email.length ≤ 128 ∧ r.username.length ≤ 128 ∧ r.password.length ≤ 128 ∧
    r.hash.length ≤ 1000 ∧ r.misc.length ≤ 1000 ∧
    (r.email ≠ [] ∨ (r.username ≠ [] ∧ (r.password ≠ [] ∨ r.hash ≠ [] ∨ r.misc ≠ []))) :=
  construct_some_invariants hc

/-- Claim C9 witness: the invariant at a concrete constructed record. -/
theorem claim_C9_witness :
    (Account.mk [97, 64, 98, 46, 99, 111, 109] [] [112] [] []).email.length ≤ 128 ∧
    (Account.mk [97, 64, 98, 46, 99, 111, 109] [] [112] [] []).username.length ≤ 128 ∧
    (Account.mk [97, 64, 98, 46, 99, 111, 109] [] [112] [] []).password.length ≤ 128 ∧
    (Account.mk [97, 64, 98, 46, 99, 111, 109] [] [112] [] []).hash.length ≤ 1000 ∧
    (Account.mk [97, 64, 98, 46, 99, 111, 109] [] [112] [] []).misc.length ≤ 1000 ∧
    ((Account.mk [97, 64, 98, 46, 99, 111, 109] [] [112] [] []).email ≠ [] ∨
      ((Account.mk [97, 64, 98, 46, 99, 111, 109] [] [112] [] []).username ≠ [] ∧
        ((Account.mk [97, 64, 98, 46, 99, 111, 109] [] [112] [] []).password ≠ [] ∨
         (Account.mk [97, 64, 98, 46, 99, 111, 109] [] [112] [] []).hash ≠ [] ∨
         (Account.mk [97, 64, 98, 46, 99, 111, 109] [] [112] [] []).misc ≠ []))) :=
  claim_C9 [97, 64, 98, 46, 99, 111, 109] [] [112] [] [] false
    (Account.mk [97, 64, 98, 46, 99, 111, 109] [] [112] [] []) (by decide)

/-- Claim C10: a byte string of at most 10 bytes is never classified as
a hash (every branch of the heuristic needs more length), and therefore
the pipeline never moves such a password into the hash slot — the hash
field of the result is always the cleaned raw hash argument. -/
theorem claim_C10 :
    (∀ s : Bytes, s.length ≤ 10 → is_hash s = false) ∧
    (∀ (e0 u0 p0 h0 m0 : Bytes) (st : Bool) (r : Account),
      construct e0 u0 p0 h0 m0 st = some r → (pyStripCRLF p0).length ≤ 10 →
      r.hash = (pyStripCRLF h0).take 1000) := by
  have hsmall : ∀ s : Bytes, s.length ≤ 10 → is_hash s = false := by
    intro s hlen
    have h1 : decide (10 < s.length) = false := by
      simp only [decide_eq_false_iff_not, not_lt]
      omega
    have h2 : decide (20 ≤ s.length) = false := by
      simp only [decide_eq_false_iff_not, not_le]
      omega
    have h3 : decide (23 ≤ s.length) = false := by
      simp only [decide_eq_false_iff_not, not_le]
      omega
    simp [is_hash, hashRegexMatch, h1, h2, h3]
  refine ⟨hsmall, ?_⟩
  intro e0 u0 p0 h0 m0 st r hc hp
  obtain ⟨e2, u2, hes, hg, hr⟩ := construct_eq_some_iff.mp hc
  have hstep : step6 h0 (pyStripCRLF p0) (pyStripCRLF h0) =
      (pyStripCRLF p0, pyStripCRLF h0) := by
    simp [step6, hsmall _ hp]
  rw [hr, hstep]

/-- Claim C10 witness: a short string is not a hash, and a record built
from a two-byte password keeps its (empty) hash field. -/
theorem claim_C10_witness :
    is_hash [97] = false ∧
    (Account.mk [] [98, 111, 98] [104, 105] [] []).hash = [] :=
  ⟨claim_C10.1 [97] (by decide),
   claim_C10.2 [] [98, 111, 98] [104, 105] [] [] false
     (Account.mk [] [98, 111, 98] [104, 105] [] []) (by decide) (by decide)⟩

/-- Claim C5 (amended): construction fails exactly when the validity gate
(evaluated after the reclassification steps) fails OR the strict-mode
email rejection fires; all-empty input always fails; and a successful
construction satisfies the gate on the resulting fields. -/
theorem claim_C5 (e0 u0 p0 h0 m0 : Bytes) :
    (∀ st : Bool, construct e0 u0 p0 h0 m0 st = none ↔
      (gateAfter e0 u0 p0 h0 m0 = false ∨
        (st = true ∧ (filterEmailInput e0).isEmpty = false ∧
          is_email (filterEmailInput e0) = false))) ∧
    (∀ st : Bool, construct [] [] [] [] [] st = none) ∧
    (∀ (st : Bool) (r : Account), construct e0 u0 p0 h0 m0 st = some r →
      (r.email ≠ [] ∨ (r.username ≠ [] ∧ (r.password ≠ [] ∨ r.hash ≠ [] ∨ r.misc ≠ [])))) := by
  refine ⟨?_, by decide, fun st r hc => (construct_some_invariants hc).2.2.2.2.2⟩
  intro st
  rw [construct_eq_none_iff]
  constructor
  · rintro (hnone | ⟨e2, u2, hes, hgf⟩)
    · exact Or.inr (emailStage_none_iff.mp hnone)
    · refine Or.inl ?_
      have hes0 := emailStage_agree hes
      simp [gateAfter, hes0, hgf]
  · rintro (hgf | hstrict)
    · rcases hes : emailStage (filterEmailInput e0) (cleanUsername u0) st with _ | ⟨e2, u2⟩
      · exact Or.inl rfl
      · refine Or.inr ⟨e2, u2, rfl, ?_⟩
        have hes0 := emailStage_agree hes
        simpa [gateAfter, hes0] using hgf
    · exact Or.inl (emailStage_none_iff.mpr hstrict)

/-- Claim C5 witness: the gate characterization, the all-empty failure
and the gate of a concrete successful record. -/
theorem claim_C5_witness :
    construct [] [] [] [] [] true = none ∧
    ((Account.mk [] [98, 111, 98] [120] [] []).email ≠ [] ∨
      ((Account.mk [] [98, 111, 98] [120] [] []).username ≠ [] ∧
        ((Account.mk [] [98, 111, 98] [120] [] []).password ≠ [] ∨
         (Account.mk [] [98, 111, 98] [120] [] []).hash ≠ [] ∨
         (Account.mk [] [98, 111, 98] [120] [] []).misc ≠ []))) :=
  ⟨(claim_C5 [] [] [] [] []).2.1 true,
   (claim_C5 [] [98, 111, 98] [120] [] []).2.2 false
     (Account.mk [] [98, 111, 98] [120] [] []) (by decide)⟩

/-- Claim C5 counterexample: with strict mode, the email `x` and an
occupied username, construction fails although the validity gate after
the reclassification steps PASSES — failure is not exactly gate failure. -/
theorem claim_C5_counterexample :
    construct [120] [117] [112] [] [] true = none ∧
    gateAfter [120] [117] [112] [] [] = true := by
  constructor
  · decide
  · decide

/-- Claim C6 (amended): with a valid filtered email, empty cleaned misc
and a cleaned password of at least 100 bytes, the password moves to misc
(up to the final 1000-byte truncation) and the password field is
cleared — PROVIDED the earlier password-to-hash step did not already
consume the password (raw hash argument non-empty, or the password not
classified as a hash). -/
theorem claim_C6 (e0 u0 p0 h0 m0 : Bytes) (st : Bool) (r : Account)
    (hc : construct e0 u0 p0 h0 m0 st = some r)
    (_hem : is_email (filterEmailInput e0) = true)
    (hm : pyStripCRLF m0 = [])
    (hp : 100 ≤ (pyStripCRLF p0).length)
    (hnot : ¬(h0 = [] ∧ is_hash (pyStripCRLF p0) = true)) :
    r.misc = (pyStripCRLF p0).take 1000 ∧ r.password = [] := by
  obtain ⟨e2, u2, hes, hg, hr⟩ := construct_eq_some_iff.mp hc
  have hs6 : step6 h0 (pyStripCRLF p0) (pyStripCRLF h0) =
      (pyStripCRLF p0, pyStripCRLF h0) := by
    unfold step6
    rw [if_neg]
    intro hcond
    simp only [Bool.and_eq_true] at hcond
    obtain ⟨⟨hh0, _⟩, hih⟩ := hcond
    exact hnot ⟨by simpa using hh0, hih⟩
  have hs7 : step7 (pyStripCRLF m0) (pyStripCRLF p0) = ([], pyStripCRLF p0) := by
    unfold step7
    rw [if_pos]
    simp [hm, hp]
  subst hr
  simp [hs6, hs7]

/-- Claim C6 witness: a 100-byte non-hash password with a valid email
lands in misc. -/
theorem claim_C6_witness :
    (Account.mk [97, 64, 98, 46, 99, 111, 109] [] [] [] (List.replicate 100 120)).misc =
      (pyStripCRLF (List.replicate 100 120)).take 1000 ∧
    (Account.mk [97, 64, 98, 46, 99, 111, 109] [] [] [] (List.replicate 100 120)).password
      = [] :=
  claim_C6 [97, 64, 98, 46, 99, 111, 109] [] (List.replicate 100 120) [] [] false
    (Account.mk [97, 64, 98, 46, 99, 111, 109] [] [] [] (List.replicate 100 120))
    (by decide) (by decide) (by decide) (by decide) (by decide)

/-- Claim C6 counterexample: a 100-byte all-hex password with valid
email, empty misc and empty hash satisfies the claim's hypotheses, but
the password-to-hash step (which runs first) consumes it: misc stays
empty rather than receiving the password. -/
theorem claim_C6_counterexample :
    construct [97, 64, 98, 46, 99, 111, 109] [] (List.replicate 100 97) [] [] false =
      some (Account.mk [97, 64, 98, 46, 99, 111, 109] [] [] (List.replicate 100 97) []) ∧
    is_email (filterEmailInput [97, 64, 98, 46, 99, 111, 109]) = true ∧
    pyStripCRLF [] = ([] : Bytes) ∧
    100 ≤ (pyStripCRLF (List.replicate 100 97)).length ∧
    (Account.mk [97, 64, 98, 46, 99, 111, 109] [] [] (List.replicate 100 97) []).misc ≠
      pyStripCRLF (List.replicate 100 97) := by
  refine ⟨by decide, by decide, by decide, by decide, by decide⟩

/-- Claim C7 (amended): the password-to-hash reclassification tests the
RAW hash argument, not the cleaned hash field: when the raw hash argument
is empty, the cleaned password non-empty and classified as a hash, the
record gets hash = password (up to the final 1000-byte truncation) and
an empty password.  A raw hash argument of only CR/LF bytes — cleaned to
empty — blocks the move. -/
theorem claim_C7 (e0 u0 p0 h0 m0 : Bytes) (st : Bool) (r : Account)
    (hc : construct e0 u0 p0 h0 m0 st = some r)
    (hh0 : h0 = [])
    (hpne : pyStripCRLF p0 ≠ [])
    (hih : is_hash (pyStripCRLF p0) = true) :
    r.hash = (pyStripCRLF p0).take 1000 ∧ r.password = [] := by
  obtain ⟨e2, u2, hes, hg, hr⟩ := construct_eq_some_iff.mp hc
  have hs6 : step6 h0 (pyStripCRLF p0) (pyStripCRLF h0) = ([], pyStripCRLF p0) := by
    unfold step6
    rw [if_pos]
    simp [hh0, hih, hpne]
  have hs7 : step7 (pyStripCRLF m0) ([] : Bytes) = ([], pyStripCRLF m0) := by
    simp [step7]
  subst hr
  simp [hs6, hs7]

/-- Claim C7 witness: an empty raw hash argument lets a 20-hex-digit
password move into the hash field. -/
theorem claim_C7_witness :
    (Account.mk [97, 64, 98, 46, 99, 111, 109] [] [] (List.replicate 20 97) []).hash =
      (pyStripCRLF (List.replicate 20 97)).take 1000 ∧
    (Account.mk [97, 64, 98, 46, 99, 111, 109] [] [] (List.replicate 20 97) []).password
      = [] :=
  claim_C7 [97, 64, 98, 46, 99, 111, 109] [] (List.replicate 20 97) [] [] false
    (Account.mk [97, 64, 98, 46, 99, 111, 109] [] [] (List.replicate 20 97) [])
    (by decide) rfl (by decide) (by decide)

/-- Claim C7 counterexample: a raw hash argument of CR LF cleans to an
empty hash field, the cleaned password is a 20-hex-digit hash, yet the
reclassification does NOT fire (the code tests the raw argument): the
hash field stays empty and the password keeps the hash-looking value. -/
theorem claim_C7_counterexample :
    construct [97, 64, 98, 46, 99, 111, 109] [] (List.replicate 20 97) [13, 10] [] false =
      some (Account.mk [97, 64, 98, 46, 99, 111, 109] [] (List.replicate 20 97) [] []) ∧
    pyStripCRLF [13, 10] = ([] : Bytes) ∧
    pyStripCRLF (List.replicate 20 97) ≠ [] ∧
    is_hash (pyStripCRLF (List.replicate 20 97)) = true ∧
    (Account.mk [97, 64, 98, 46, 99, 111, 109] [] (List.replicate 20 97) [] []).hash = [] ∧
    (Account.mk [97, 64, 98, 46, 99, 111, 109] [] (List.replicate 20 97) [] []).password =
      List.replicate 20 97 := by
  refine ⟨by decide, by decide, by decide, by decide, by decide, by decide⟩

/-- Claim C8 (amended): record equality is decided over the NUL-joined
concatenation of the five fields; byte-for-byte field equality always
implies record equality, and for records whose fields contain no NUL
byte the two notions coincide exactly.  (Fields CAN contain NUL bytes,
making the join ambiguous — see the counterexample.) -/
theorem claim_C8 (a b : Account)
    (hae : (0 : Nat) ∉ a.email) (hau : (0 : Nat) ∉ a.username)
    (hap : (0 : Nat) ∉ a.password) (hah : (0 : Nat) ∉ a.hash) (ham : (0 : Nat) ∉ a.misc)
    (hbe : (0 : Nat) ∉ b.email) (hbu : (0 : Nat) ∉ b.username)
    (hbp : (0 : Nat) ∉ b.password) (hbh : (0 : Nat) ∉ b.hash) (hbm : (0 : Nat) ∉ b.misc) :
    accountEq a b = true ↔ a = b := by
  constructor
  · intro h
    have hbytes : a.bytes = b.bytes := by simpa [accountEq] using h
    rw [account_bytes_eq, account_bytes_eq] at hbytes
    obtain ⟨he, h1⟩ := append_nul_inj hae hbe hbytes
    obtain ⟨hu, h2⟩ := append_nul_inj hau hbu h1
    obtain ⟨hp, h3⟩ := append_nul_inj hap hbp h2
    obtain ⟨hh, hm⟩ := append_nul_inj hah hbh h3
    cases a
    cases b
    simp_all
  · intro h
    subst h
    simp [accountEq]

/-- Claim C8 witness: the equivalence applied to two concrete NUL-free
records. -/
theorem claim_C8_witness :
    accountEq (Account.mk [97] [98] [] [] []) (Account.mk [97] [] [98] [] []) = true ↔
      Account.mk [97] [98] [] [] [] = Account.mk [97] [] [98] [] [] :=
  claim_C8 (Account.mk [97] [98] [] [] []) (Account.mk [97] [] [98] [] [])
    (by decide) (by decide) (by decide) (by decide) (by decide)
    (by decide) (by decide) (by decide) (by decide) (by decide)

/-- Claim C8 counterexample: two canonical records (both constructible)
whose fields differ, yet whose NUL-joined concatenations — and hence
their equality and hash identity — coincide, because a NUL byte inside
the username and password fields makes the join ambiguous. -/
theorem claim_C8_counterexample :
    construct [] [97, 0, 98] [99] [] [] false =
      some (Account.mk [] [97, 0, 98] [99] [] []) ∧
    construct [] [97] [98, 0, 99] [] [] false =
      some (Account.mk [] [97] [98, 0, 99] [] []) ∧
    accountEq (Account.mk [] [97, 0, 98] [99] [] [])
      (Account.mk [] [97] [98, 0, 99] [] []) = true ∧
    Account.mk [] [97, 0, 98] [99] [] [] ≠ Account.mk [] [97] [98, 0, 99] [] [] := by
  refine ⟨by decide, by decide, by decide, by decide⟩

/-- Claim C1 (amended): the identifier equals the claim's formula with
one correction — the email is split by `@` and the domain half is the
segment between the first and the second `@` (everything from a second
`@` on is dropped), an email without `@` being all-local with empty
domain; the empty-email case is as the claim states it. -/
theorem claim_C1 : ∀ a : Account, to_object_id a = specObjectIdAmended a := by
  intro a
  have hb : Account.bytes a = specDigestInput a := by
    rw [account_bytes_eq]
    rfl
  by_cases he : a.email = []
  · have hie : a.email.isEmpty = true := by simp [he]
    simp [to_object_id, specObjectIdAmended, hie, hb, decode]
  · have hie : a.email.isEmpty = false := by simpa using he
    simp only [to_object_id, specObjectIdAmended, hie, Bool.not_false, if_true,
      Bool.false_eq_true, if_false, decode, hb, split_email_spec]

/-- Claim C1 counterexample: the canonical record with email `a@b@c`
(constructible, since the invalid email is retained when the username is
occupied).  The code uses only `b` — the chunk between the two `@`s — as
the domain, while the claim's formula uses `b@c`; the identifiers differ. -/
theorem claim_C1_counterexample :
    construct [97, 64, 98, 64, 99] [117] [112] [] [] false =
      some (Account.mk [97, 64, 98, 64, 99] [117] [112] [] []) ∧
    to_object_id (Account.mk [97, 64, 98, 64, 99] [117] [112] [] []) ≠
      specObjectIdOriginal (Account.mk [97, 64, 98, 64, 99] [117] [112] [] []) := by
  refine ⟨by decide, by decide⟩

/-- Claim C3 (amended): for every canonical record whose email matches
the strict email shape byte-for-byte (in particular it contains exactly
one `@` and no trailing newline), reconstructing from the persisted
document recovers the same canonical email — the stored local part, then
`@`, then the byte-reversed domain chunk of the identifier.  (For
malformed retained emails the recovered email can differ, see the
counterexample.) -/
theorem claim_C3 (e0 u0 p0 h0 m0 : Bytes) (st : Bool) (r : Account)
    (hc : construct e0 u0 p0 h0 m0 st = some r)
    (hcore : emailCore r.email = true) :
    ∃ rr : Account, from_document r.document = some rr ∧ rr.email = r.email := by
  obtain ⟨l, rest, hps, hjoin, hlne, hlmem, hrmem⟩ := emailCore_decomp hcore
  have hene : r.email ≠ [] := by
    rw [hjoin]
    simp
  have hie : r.email.isEmpty = false := by simpa using hene
  have hchars := canonical_email_chars hc hcore
  have hlen : r.email.length ≤ 128 := (construct_some_invariants hc).1
  have hisem : is_email r.email = true := is_email_of_emailCore hcore hlen
  have hse : split_email r.email = (l, rest) := by
    unfold split_email
    rw [hps]
  have hoid : to_object_id r = rest.reverse ++ 124 ::
      (b64encode ((sha256 l).take 6) ++ b64encode ((sha256 r.bytes).take 6)) := by
    unfold to_object_id
    rw [if_pos (by simp [hie])]
    simp [hse, decode]
  have hchunk : (to_object_id r).takeWhile (fun c => !(c == 124)) = rest.reverse := by
    rw [hoid]
    apply takeWhile_append_cons
    · intro c hcm
      exact domainChar_ne_pipe (hrmem c (List.mem_reverse.mp hcm))
    · simp
  have hfd : from_document r.document =
      construct r.email r.username r.password r.hash r.misc false := by
    simp only [from_document, Account.document, hie, Bool.not_false, if_true, hse,
      decode, encode, hchunk, List.reverse_reverse]
    rw [if_key_exists_opt, if_key_exists_opt, if_key_exists_opt, if_key_exists_opt,
      ← hjoin]
  have hfilter : filterEmailInput r.email = r.email := filterEmailInput_fixed hchars
  have hes2 : emailStage (filterEmailInput r.email) (cleanUsername r.username) false =
      some (r.email, cleanUsername r.username) := by
    rw [hfilter]
    unfold emailStage
    rw [if_neg (by simp [hie]), if_neg (by simp [hisem])]
  refine ⟨{ email := pyTakeLast 128 r.email
            username := (cleanUsername r.username).take 128
            password := (step7 (pyStripCRLF r.misc)
              (step6 r.hash (pyStripCRLF r.password) (pyStripCRLF r.hash)).1).1.take 128
            hash := (step6 r.hash (pyStripCRLF r.password) (pyStripCRLF r.hash)).2.take 1000
            misc := (step7 (pyStripCRLF r.misc)
              (step6 r.hash (pyStripCRLF r.password) (pyStripCRLF r.hash)).1).2.take 1000 },
    ?_, ?_⟩
  · rw [hfd]
    exact construct_eq_some_iff.mpr
      ⟨r.email, cleanUsername r.username, hes2, gateB_of_email hie, rfl⟩
  · exact pyTakeLast_of_le hlen

/-- Claim C3 witness: the round trip at a concrete record with a valid
email. -/
theorem claim_C3_witness :
    ∃ rr : Account,
      from_document (Account.document
        (Account.mk [106, 111, 104, 110, 46, 100, 111, 101, 64, 101, 120, 97, 109,
          112, 108, 101, 46, 99, 111, 109] [] [104, 117, 110, 116, 101, 114, 50] [] []))
        = some rr ∧
      rr.email = (Account.mk [106, 111, 104, 110, 46, 100, 111, 101, 64, 101, 120, 97,
        109, 112, 108, 101, 46, 99, 111, 109] [] [104, 117, 110, 116, 101, 114, 50]
        [] []).email :=
  claim_C3 []
    [74, 111, 104, 110, 46, 68, 111, 101, 64, 69, 120, 97, 109, 112, 108, 101, 46, 99,
     111, 109]
    [104, 117, 110, 116, 101, 114, 50] [] [] false
    (Account.mk [106, 111, 104, 110, 46, 100, 111, 101, 64, 101, 120, 97, 109, 112,
      108, 101, 46, 99, 111, 109] [] [104, 117, 110, 116, 101, 114, 50] [] [])
    (by decide) (by decide)

/-- Claim C3 counterexample: a canonical record whose retained email
`abc` has no `@`.  The document stores local part `abc` and an empty
domain chunk, so reconstruction yields email `abc@`, which differs from
the original canonical email. -/
theorem claim_C3_counterexample :
    construct [97, 98, 99] [117] [112] [] [] false =
      some (Account.mk [97, 98, 99] [117] [112] [] []) ∧
    from_document (Account.document (Account.mk [97, 98, 99] [117] [112] [] [])) =
      some (Account.mk [97, 98, 99, 64] [117] [112] [] []) ∧
    (Account.mk [97, 98, 99, 64] [117] [112] [] []).email ≠
      (Account.mk [97, 98, 99] [117] [112] [] []).email := by
  refine ⟨by decide, by decide, by decide⟩

/-! ### Test vectors

FIPS 180-4 vectors for the SHA-256 embedding, RFC 4648 vectors for the
base64 embedding, and the specification's own probes for the validator
and the pipeline. -/

example : sha256 [] =
    [227, 176, 196, 66, 152, 252, 28, 20, 154, 251, 244, 200, 153, 111, 185, 36,
     39, 174, 65, 228, 100, 155, 147, 76, 164, 149, 153, 27, 120, 82, 184, 85] := by
  decide

example : sha256 [97, 98, 99] =
    [186, 120, 22, 191, 143, 1, 207, 234, 65, 65, 64, 222, 93, 174, 34, 35, 176,
     3, 97, 163, 150, 23, 122, 156, 180, 16, 255, 97, 242, 0, 21, 173] := by
  decide

example : b64encode [102, 111, 111, 98, 97, 114] = [90, 109, 57, 118, 89, 109, 70, 121] := by
  decide

example : b64encode [102, 111, 111, 98] = [90, 109, 57, 118, 89, 103, 61, 61] := by
  decide

-- is_hash(md5-hex) is true; is_hash(b"hello") is false
example : is_hash [53, 102, 52, 100, 99, 99, 51, 98, 53, 97, 97, 55, 54, 53, 100,
    54, 49, 100, 56, 51, 50, 55, 100, 101, 98, 56, 56, 50, 99, 102, 57, 57] = true := by
  decide

example : is_hash [104, 101, 108, 108, 111] = false := by
  decide

-- is_email(b"User@Example.COM") is true; is_email(b"not-an-email") is false
example : is_email [85, 115, 101, 114, 64, 69, 120, 97, 109, 112, 108, 101, 46,
    67, 79, 77] = true := by
  decide

example : is_email [110, 111, 116, 45, 97, 110, 45, 101, 109, 97, 105, 108] = false := by
  decide

-- end-to-end: an email-shaped username is promoted and lower-cased
example : construct []
    [74, 111, 104, 110, 46, 68, 111, 101, 64, 69, 120, 97, 109, 112, 108, 101,
     46, 99, 111, 109]
    [104, 117, 110, 116, 101, 114, 50] [] [] false =
  some (Account.mk
    [106, 111, 104, 110, 46, 100, 111, 101, 64, 101, 120, 97, 109, 112, 108, 101,
     46, 99, 111, 109]
    [] [104, 117, 110, 116, 101, 114, 50] [] []) := by
  decide

-- end-to-end: a hash-shaped password moves into the hash field
example : construct [] [98, 111, 98]
    [53, 102, 52, 100, 99, 99, 51, 98, 53, 97, 97, 55, 54, 53, 100, 54, 49, 100,
     56, 51, 50, 55, 100, 101, 98, 56, 56, 50, 99, 102, 57, 57]
    [] [] false =
  some (Account.mk [] [98, 111, 98] []
    [53, 102, 52, 100, 99, 99, 51, 98, 53, 97, 97, 55, 54, 53, 100, 54, 49, 100,
     56, 51, 50, 55, 100, 101, 98, 56, 56, 50, 99, 102, 57, 57]
    []) := by
  decide

-- identifier of the promoted record: reversed domain, pipe, 8+8 base64 chars
example : to_object_id (Account.mk
    [106, 111, 104, 110, 46, 100, 111, 101, 64, 101, 120, 97, 109, 112, 108, 101,
     46, 99, 111, 109]
    [] [104, 117, 110, 116, 101, 114, 50] [] []) =
  [109, 111, 99, 46, 101, 108, 112, 109, 97, 120, 101, 124, 77, 80, 97, 87, 99,
   76, 117, 105, 69, 47, 65, 105, 97, 101, 90, 105] := by
  decide

end Credshed

